import Mathlib

/-!
Shallow embedding of the BatChit chat backend relay core
(`src/backend/main.py`, `src/backend/models.py`).

The relay core is the `websocket_endpoint` coroutine together with the
process-wide dictionary `active_connections : Dict[int, WebSocket]`.
We model:

* the Python dictionary as an association list with Python's
  replace-in-place assignment semantics (`dictSet`), lookup (`dictGet`)
  and `del` (`dictDel`);
* the SQL store (`Conversation` and `Message` tables) as lists of
  records with autoincrement ids and a server-assigned monotone clock
  standing for `datetime.utcnow` timestamps;
* one iteration of the websocket read loop (lines 152-194 of
  `main.py`) as `relayStep`.  A `NOT NULL` constraint violation at
  commit time (missing `to` when a conversation row must be created,
  or missing `content` for the message row) raises an exception that
  is not caught by the `except WebSocketDisconnect` handler, so it is
  modelled as a `dbError` result that terminates the loop;
* the whole server as a step function on a global state
  (registry, store, set of live session loops) driven by
  connect / frame / disconnect events.
-/

namespace BatChit

/-- User identities are the integer primary keys of the `user` table. -/
abbrev UserId := Nat

/-- Connection handles stand for distinct live `WebSocket` objects. -/
abbrev Handle := Nat

/-- Conversation identifiers are the integer primary keys of the
`conversation` table. -/
abbrev ConvId := Nat

/-- Row of the `conversation` table (`models.py`, class `Conversation`):
primary key `id` and the two participant foreign keys `user_a`, `user_b`. -/
structure Conversation where
  id : ConvId
  user_a : UserId
  user_b : UserId
deriving DecidableEq

/-- Row of the `message` table (`models.py`, class `Message`): primary key
`id`, foreign key `conversation_id`, `sender_id`, `content`, and the
server-assigned `timestamp` (default_factory `datetime.utcnow`, modelled
as a monotone counter). -/
structure Message where
  id : Nat
  conversation_id : ConvId
  sender_id : UserId
  content : String
  timestamp : Nat
deriving DecidableEq

/-- State of the SQL store: the two relay-relevant tables plus the
autoincrement counters and the server clock used for timestamps. -/
structure Store where
  conversations : List Conversation
  messages : List Message
  nextConvId : ConvId
  nextMsgId : Nat
  clock : Nat
deriving DecidableEq

/-- Fresh database: empty tables, autoincrement ids starting at 1. -/
def emptyStore : Store := ⟨[], [], 1, 1, 0⟩

/-- Inbound websocket frame after `json.loads`:
`obj.get("to")`, `obj.get("content")`, `obj.get("conversation_id")`
each yield `None` when the key is absent, hence the `Option` fields. -/
structure InFrame where
  to? : Option UserId
  content? : Option String
  conversation_id? : Option ConvId
deriving DecidableEq

/-- Outbound frame `payload_out` built at lines 181-186 of `main.py`:
`{"conversation_id": conv_id, "sender_id": user_id, "content": content,
"timestamp": str(msg.timestamp)}`. -/
structure OutFrame where
  conversation_id : ConvId
  sender_id : UserId
  content : String
  timestamp : Nat
deriving DecidableEq

/-- The connection registry `active_connections : Dict[int, WebSocket]`
(line 27 of `main.py`), modelled as an insertion-ordered association
list, as Python dictionaries are. -/
abbrev Registry := List (UserId × Handle)

/-- Python dictionary assignment `d[k] = v`: replaces the value in place
when the key is present, appends the new pair otherwise. -/
def dictSet : Registry → UserId → Handle → Registry
  | [], k, v => [(k, v)]
  | (k', v') :: r, k, v =>
    if k' = k then (k, v) :: r else (k', v') :: dictSet r k v

/-- Python dictionary lookup `d.get(k)`: the value when present, `None`
otherwise. -/
def dictGet : Registry → UserId → Option Handle
  | [], _ => none
  | (k', v') :: r, k => if k' = k then some v' else dictGet r k

/-- Python `if k in d: del d[k]` (lines 198-199 of `main.py`): removes
the entry for `k` when present, no-op otherwise. -/
def dictDel : Registry → UserId → Registry
  | [], _ => []
  | (k', v') :: r, k => if k' = k then dictDel r k else (k', v') :: dictDel r k

/-- Commit of a fresh `Conversation(user_a=a, user_b=b)` row
(lines 164-168 of `main.py`): the row gets the next autoincrement id,
which `session.refresh` then reads back. -/
def appendConversation (st : Store) (a b : UserId) : Store × ConvId :=
  ({ st with
      conversations := st.conversations ++ [⟨st.nextConvId, a, b⟩],
      nextConvId := st.nextConvId + 1 }, st.nextConvId)

/-- Commit of a fresh `Message(conversation_id=c, sender_id=sender,
content=content)` row (lines 171-178 of `main.py`): the row gets the next
autoincrement id and the server-assigned timestamp. -/
def appendMessage (st : Store) (c : ConvId) (sender : UserId) (content : String) :
    Store × Message :=
  let m : Message := ⟨st.nextMsgId, c, sender, content, st.clock⟩
  ({ st with
      messages := st.messages ++ [m],
      nextMsgId := st.nextMsgId + 1,
      clock := st.clock + 1 }, m)

/-- Result of one iteration of the read loop.  `sent` carries the new
store state, the optional frame handed to the recipient's registered
handle, and the echo frame written back on the session's own socket.
`dbError` models an `IntegrityError` escaping `session.commit()`: the
`except WebSocketDisconnect` handler does not catch it, so the loop
terminates; the carried store reflects any commits that succeeded
before the failure. -/
inductive RelayResult where
  | sent (store : Store) (toRecipient : Option (Handle × OutFrame)) (echo : OutFrame)
  | dbError (store : Store)
deriving DecidableEq

/-- Store state carried by a `RelayResult`. -/
def RelayResult.store : RelayResult → Store
  | .sent st _ _ => st
  | .dbError st => st

/-- Persistence and dispatch tail of one loop iteration (lines 171-194
of `main.py`): commit the message row (`content=None` violates the
`NOT NULL` constraint of `Message.content` and raises), build
`payload_out`, look up the recipient in `active_connections` (a lookup
of `None` finds nothing, keys being ints), and always echo to the
sender's own socket. -/
def relayPersist (reg : Registry) (st : Store) (uid : UserId)
    (receiver_id : Option UserId) (content : Option String) (cid : ConvId) :
    RelayResult :=
  match content with
  | none => .dbError st
  | some txt =>
    let (st2, m) := appendMessage st cid uid txt
    let out : OutFrame := ⟨cid, uid, txt, m.timestamp⟩
    let toRecv : Option (Handle × OutFrame) :=
      match receiver_id with
      | none => none
      | some r => (dictGet reg r).map (fun h => (h, out))
    .sent st2 toRecv out

/-- One iteration of the read loop of `websocket_endpoint`
(lines 152-194 of `main.py`) on an already-parsed frame.  When
`conversation_id` is absent a fresh `Conversation(user_a=user_id,
user_b=receiver_id)` row is always created — there is no lookup of an
existing conversation for the pair and no canonicalization of the
order; `receiver_id=None` there violates the `NOT NULL` constraint of
`Conversation.user_b` and raises at commit. -/
def relayStep (reg : Registry) (st : Store) (uid : UserId) (f : InFrame) :
    RelayResult :=
  match f.conversation_id? with
  | none =>
    match f.to? with
    | none => .dbError st
    | some r =>
      let (st1, cid) := appendConversation st uid r
      relayPersist reg st1 uid f.to? f.content? cid
  | some cid => relayPersist reg st uid f.to? f.content? cid

/-- Read path `GET /messages/{conversation_id}` (lines 90-97 of
`main.py`): all message rows of the conversation, ordered by timestamp.
Rows are committed with strictly increasing timestamps, so table order
filtered by conversation is already the timestamp order the endpoint
returns. -/
def listMessages (st : Store) (c : ConvId) : List Message :=
  st.messages.filter (fun m => m.conversation_id = c)

/-- Live relay-session loops: which handles currently run the read loop
of `websocket_endpoint`, and as which authenticated user. -/
abbrev Sessions := List (Handle × UserId)

/-- Authenticated user of the session running on handle `h`, if any. -/
def sessionUid : Sessions → Handle → Option UserId
  | [], _ => none
  | p :: ss, h => if p.1 = h then some p.2 else sessionUid ss h

/-- Removal of the session loop running on handle `h` once it ends. -/
def removeSession : Sessions → Handle → Sessions
  | [], _ => []
  | p :: ss, h => if p.1 = h then removeSession ss h else p :: removeSession ss h

/-- Truth value of "some live session is authenticated as `u`". -/
def hasUid : Sessions → UserId → Bool
  | [], _ => false
  | p :: ss, u => if p.2 = u then true else hasUid ss u

/-- Global server state: the connection registry, the SQL store, and the
currently active session loops. -/
structure SysState where
  reg : Registry
  store : Store
  sessions : Sessions
deriving DecidableEq

/-- Boot state: registry and session set are pure in-memory and start
empty; the database starts fresh. -/
def initState : SysState := ⟨[], emptyStore, []⟩

/-- Observable outputs of a step: a websocket close with a status code,
or a text frame sent on a handle. -/
inductive Output where
  | close (h : Handle) (code : Nat)
  | send (h : Handle) (f : OutFrame)
deriving DecidableEq

/-- External events driving the server: a connection attempt carrying a
credential (`decode_access_token` modelled as `Option UserId`: `none`
is a credential that fails verification), an inbound frame on a live
session, and a `WebSocketDisconnect` on a live session. -/
inductive Event where
  | connect (token : Option UserId) (h : Handle)
  | frame (h : Handle) (f : InFrame)
  | disconnect (h : Handle)
deriving DecidableEq

/-- One event of `websocket_endpoint` against the global state.

* `connect` with a failing credential: `await websocket.close(code=1008)`
  and return — nothing registered, nothing persisted, no loop started
  (lines 141-144 of `main.py`).
* `connect` with a valid credential for `uid`:
  `active_connections[user_id] = websocket` and the read loop starts
  (lines 146-147).
* `frame` on a live session: one iteration of the read loop; on a
  database error the exception escapes the `try` whose only handler is
  `except WebSocketDisconnect`, so the loop dies with **no** registry
  cleanup.
* `disconnect` on a live session: `if user_id in active_connections:
  del active_connections[user_id]` — deletion keyed by the user id
  alone, with no check that the registered handle is this session's
  own socket (lines 196-199). -/
def step (s : SysState) (e : Event) : SysState × List Output :=
  match e with
  | .connect none h => (s, [.close h 1008])
  | .connect (some uid) h =>
    ({ s with reg := dictSet s.reg uid h, sessions := s.sessions ++ [(h, uid)] }, [])
  | .frame h f =>
    match sessionUid s.sessions h with
    | none => (s, [])
    | some uid =>
      match relayStep s.reg s.store uid f with
      | .sent st' toRecv echo =>
        let fwd : List Output :=
          match toRecv with
          | some (hB, o) => [.send hB o]
          | none => []
        ({ s with store := st' }, fwd ++ [.send h echo])
      | .dbError st' =>
        ({ s with store := st', sessions := removeSession s.sessions h }, [])
  | .disconnect h =>
    match sessionUid s.sessions h with
    | none => (s, [])
    | some uid =>
      ({ s with reg := dictDel s.reg uid,
                sessions := removeSession s.sessions h }, [])

/-- Run of a sequence of events, accumulating the outputs. -/
def runEvents : SysState → List Event → SysState × List Output
  | s, [] => (s, [])
  | s, e :: es =>
    let p := step s e
    let q := runEvents p.1 es
    (q.1, p.2 ++ q.2)

/-- Read loop of a single session on handle `h` authenticated as `uid`,
processing its inbound frames in arrival order against a fixed registry
snapshot: each iteration persists and dispatches before the next
`receive_text` is awaited; an uncaught database error ends the loop. -/
def relayLoop (reg : Registry) (uid : UserId) (h : Handle) :
    Store → List InFrame → Store × List Output
  | st, [] => (st, [])
  | st, f :: fs =>
    match relayStep reg st uid f with
    | .sent st' toRecv echo =>
      let fwd : List Output :=
        match toRecv with
        | some (hB, o) => [.send hB o]
        | none => []
      let rest := relayLoop reg uid h st' fs
      (rest.1, (fwd ++ [.send h echo]) ++ rest.2)
    | .dbError st' => (st', [])

/-- Truth value of "every frame of the list is processed without a
database error when fed to the loop in order". -/
def loopOk (reg : Registry) (uid : UserId) : Store → List InFrame → Bool
  | _, [] => true
  | st, f :: fs =>
    match relayStep reg st uid f with
    | .sent st' _ _ => loopOk reg uid st' fs
    | .dbError _ => false

/-- Truth value of "this frame is processed without a database error in
the given registry and store". -/
def stepOk (reg : Registry) (st : Store) (uid : UserId) (f : InFrame) : Bool :=
  match relayStep reg st uid f with
  | .sent _ _ _ => true
  | .dbError _ => false

/-- Guard singling out the benign events: a connect may not be a
duplicate login for an already-active identity nor reuse a live handle,
and a frame on a live session may not fail persistence.  Outside these
conditions the code itself breaks the registry/session correspondence
(see the counterexamples below). -/
def eventOk (s : SysState) (e : Event) : Bool :=
  match e with
  | .connect none _ => true
  | .connect (some uid) h =>
    !(hasUid s.sessions uid) && (sessionUid s.sessions h).isNone
  | .frame h f =>
    match sessionUid s.sessions h with
    | none => true
    | some uid => stepOk s.reg s.store uid f
  | .disconnect _ => true

/-- Truth value of "every event of the sequence satisfies `eventOk` in
the state it is executed in". -/
def validRun : SysState → List Event → Bool
  | _, [] => true
  | s, e :: es => eventOk s e && validRun (step s e).1 es

/-- Inductive invariant tying the registry to the live sessions: live
handles are pairwise distinct, live identities are pairwise distinct,
and an identity has a registry entry exactly when one of the live
session loops is authenticated as it. -/
def Inv (s : SysState) : Prop :=
  (s.sessions.map Prod.fst).Nodup ∧ (s.sessions.map Prod.snd).Nodup ∧
    ∀ u : UserId, (dictGet s.reg u).isSome = hasUid s.sessions u

/-! ### Dictionary and session-list lemmas -/

theorem dictGet_dictSet_self (r : Registry) (k : UserId) (v : Handle) :
    dictGet (dictSet r k v) k = some v := by
  induction r with
  | nil => simp [dictSet, dictGet]
  | cons p r ih =>
    obtain ⟨a, b⟩ := p
    by_cases h : a = k
    · simp [dictSet, dictGet, h]
    · simp [dictSet, dictGet, h, ih]

theorem dictGet_dictSet_ne (r : Registry) (k u : UserId) (v : Handle)
    (h : u ≠ k) : dictGet (dictSet r k v) u = dictGet r u := by
  have hku : ¬(k = u) := fun hh => h hh.symm
  induction r with
  | nil => simp [dictSet, dictGet, hku]
  | cons p r ih =>
    obtain ⟨a, b⟩ := p
    by_cases hak : a = k
    · subst hak
      simp [dictSet, dictGet, hku]
    · simp [dictSet, dictGet, hak, ih]

theorem dictDel_eq_filter (r : Registry) (k : UserId) :
    dictDel r k = r.filter (fun p => p.1 ≠ k) := by
  induction r with
  | nil => rfl
  | cons p r ih =>
    obtain ⟨a, b⟩ := p
    by_cases hak : a = k <;> simp [dictDel, List.filter_cons, hak, ih]

theorem dictGet_dictDel_self (r : Registry) (k : UserId) :
    dictGet (dictDel r k) k = none := by
  induction r with
  | nil => simp [dictDel, dictGet]
  | cons p r ih =>
    obtain ⟨a, b⟩ := p
    by_cases hak : a = k
    · simp [dictDel, hak, ih]
    · simp [dictDel, dictGet, hak, ih]

theorem dictGet_dictDel_ne (r : Registry) (k u : UserId)
    (h : u ≠ k) : dictGet (dictDel r k) u = dictGet r u := by
  induction r with
  | nil => simp [dictDel]
  | cons p r ih =>
    obtain ⟨a, b⟩ := p
    by_cases hak : a = k
    · subst hak
      have hau : ¬(a = u) := fun hh => h hh.symm
      simp [dictDel, dictGet, hau, ih]
    · simp [dictDel, dictGet, hak, ih]

theorem mem_keys_dictSet (r : Registry) (k a : UserId) (v : Handle) :
    a ∈ (dictSet r k v).map Prod.fst ↔ a ∈ r.map Prod.fst ∨ a = k := by
  induction r with
  | nil => simp [dictSet]
  | cons p r ih =>
    obtain ⟨b, c⟩ := p
    by_cases h : b = k
    · subst h
      simp [dictSet]
      tauto
    · simp [dictSet, h, ih]
      tauto

theorem nodup_keys_dictSet (r : Registry) (k : UserId) (v : Handle)
    (h : (r.map Prod.fst).Nodup) : ((dictSet r k v).map Prod.fst).Nodup := by
  induction r with
  | nil => simp [dictSet]
  | cons p r ih =>
    obtain ⟨a, b⟩ := p
    rw [List.map_cons, List.nodup_cons] at h
    by_cases hak : a = k
    · subst hak
      simpa [dictSet] using h
    · simp only [dictSet, if_neg hak, List.map_cons, List.nodup_cons]
      refine ⟨fun hmem => ?_, ih h.2⟩
      rcases (mem_keys_dictSet r k a v).mp hmem with hm | hm
      · exact h.1 hm
      · exact hak hm

theorem nodup_keys_dictDel (r : Registry) (k : UserId)
    (h : (r.map Prod.fst).Nodup) : ((dictDel r k).map Prod.fst).Nodup := by
  rw [dictDel_eq_filter]
  exact ((List.filter_sublist r).map Prod.fst).nodup h

theorem removeSession_eq_filter (ss : Sessions) (h : Handle) :
    removeSession ss h = ss.filter (fun p => p.1 ≠ h) := by
  induction ss with
  | nil => rfl
  | cons p ss ih =>
    obtain ⟨a, b⟩ := p
    by_cases hah : a = h <;> simp [removeSession, List.filter_cons, hah, ih]

theorem mem_removeSession (ss : Sessions) (h : Handle) (p : Handle × UserId) :
    p ∈ removeSession ss h ↔ p ∈ ss ∧ p.1 ≠ h := by
  rw [removeSession_eq_filter]
  simp

theorem removeSession_sublist (ss : Sessions) (h : Handle) :
    List.Sublist (removeSession ss h) ss := by
  rw [removeSession_eq_filter]
  exact List.filter_sublist ss

theorem hasUid_eq_true_iff (ss : Sessions) (u : UserId) :
    hasUid ss u = true ↔ ∃ h, (h, u) ∈ ss := by
  induction ss with
  | nil => simp [hasUid]
  | cons p ss ih =>
    obtain ⟨a, b⟩ := p
    by_cases hbu : b = u
    · subst hbu
      simp [hasUid]
    · simp only [hasUid, if_neg hbu, ih]
      constructor
      · rintro ⟨h, hm⟩
        exact ⟨h, List.mem_cons_of_mem _ hm⟩
      · rintro ⟨h, hm⟩
        rcases List.mem_cons.mp hm with heq | hm'
        · exact absurd (congrArg Prod.snd heq).symm hbu
        · exact ⟨h, hm'⟩

theorem sessionUid_eq_some_mem (ss : Sessions) (h : Handle) (u : UserId)
    (hs : sessionUid ss h = some u) : (h, u) ∈ ss := by
  induction ss with
  | nil => simp [sessionUid] at hs
  | cons p ss ih =>
    obtain ⟨a, b⟩ := p
    by_cases hah : a = h
    · subst hah
      simp [sessionUid] at hs
      subst hs
      exact List.mem_cons_self _ _
    · simp only [sessionUid, if_neg hah] at hs
      exact List.mem_cons_of_mem _ (ih hs)

theorem sessionUid_eq_none_iff (ss : Sessions) (h : Handle) :
    sessionUid ss h = none ↔ ∀ p ∈ ss, p.1 ≠ h := by
  induction ss with
  | nil => simp [sessionUid]
  | cons p ss ih =>
    obtain ⟨a, b⟩ := p
    by_cases hah : a = h
    · subst hah
      simp [sessionUid, ih]
    · simp [sessionUid, hah, ih]

theorem snd_nodup_uniq (ss : Sessions) (hnd : (ss.map Prod.snd).Nodup)
    (a b : Handle) (u : UserId) (ha : (a, u) ∈ ss) (hb : (b, u) ∈ ss) : a = b := by
  induction ss with
  | nil => simp at ha
  | cons p ss ih =>
    rw [List.map_cons, List.nodup_cons] at hnd
    rcases List.mem_cons.mp ha with h1 | h1 <;> rcases List.mem_cons.mp hb with h2 | h2
    · exact congrArg Prod.fst (h1.trans h2.symm)
    · rw [← h1] at hnd
      exact absurd (List.mem_map_of_mem Prod.snd h2) hnd.1
    · rw [← h2] at hnd
      exact absurd (List.mem_map_of_mem Prod.snd h1) hnd.1
    · exact ih hnd.2 h1 h2

theorem fst_nodup_uniq (ss : Sessions) (hnd : (ss.map Prod.fst).Nodup)
    (h : Handle) (u v : UserId) (hu : (h, u) ∈ ss) (hv : (h, v) ∈ ss) : u = v := by
  induction ss with
  | nil => simp at hu
  | cons p ss ih =>
    rw [List.map_cons, List.nodup_cons] at hnd
    rcases List.mem_cons.mp hu with h1 | h1 <;> rcases List.mem_cons.mp hv with h2 | h2
    · exact congrArg Prod.snd (h1.trans h2.symm)
    · rw [← h1] at hnd
      exact absurd (List.mem_map_of_mem Prod.fst h2) hnd.1
    · rw [← h2] at hnd
      exact absurd (List.mem_map_of_mem Prod.fst h1) hnd.1
    · exact ih hnd.2 h1 h2

theorem hasUid_append (ss ts : Sessions) (u : UserId) :
    hasUid (ss ++ ts) u = (hasUid ss u || hasUid ts u) := by
  induction ss with
  | nil => simp [hasUid]
  | cons p ss ih =>
    obtain ⟨a, b⟩ := p
    by_cases hbu : b = u <;> simp [hasUid, hbu, ih]

/-! ### Relay-step lemmas -/

theorem relayStep_conv_absent (reg : Registry) (st : Store) (uid r : UserId)
    (ct : Option String) :
    relayStep reg st uid ⟨some r, ct, none⟩
      = relayPersist reg (appendConversation st uid r).1 uid (some r) ct
          st.nextConvId := rfl

theorem relayStep_conv_present (reg : Registry) (st : Store) (uid : UserId)
    (rid : Option UserId) (ct : Option String) (c : ConvId) :
    relayStep reg st uid ⟨rid, ct, some c⟩ = relayPersist reg st uid rid ct c := rfl

theorem relayStep_no_conv_no_to (reg : Registry) (st : Store) (uid : UserId)
    (ct : Option String) :
    relayStep reg st uid ⟨none, ct, none⟩ = .dbError st := rfl

theorem relayPersist_no_content (reg : Registry) (st : Store) (uid : UserId)
    (rid : Option UserId) (cid : ConvId) :
    relayPersist reg st uid rid none cid = .dbError st := rfl

theorem relayPersist_online (reg : Registry) (st : Store) (uid B : UserId)
    (hB : Handle) (txt : String) (cid : ConvId) (h : dictGet reg B = some hB) :
    relayPersist reg st uid (some B) (some txt) cid
      = .sent (appendMessage st cid uid txt).1
          (some (hB, ⟨cid, uid, txt, st.clock⟩)) ⟨cid, uid, txt, st.clock⟩ := by
  simp [relayPersist, appendMessage, h]

theorem relayPersist_offline (reg : Registry) (st : Store) (uid B : UserId)
    (txt : String) (cid : ConvId) (h : dictGet reg B = none) :
    relayPersist reg st uid (some B) (some txt) cid
      = .sent (appendMessage st cid uid txt).1 none ⟨cid, uid, txt, st.clock⟩ := by
  simp [relayPersist, appendMessage, h]

theorem relayStep_store_messages (reg : Registry) (st : Store) (uid : UserId)
    (f : InFrame) :
    ∃ t, (relayStep reg st uid f).store.messages = st.messages ++ t := by
  obtain ⟨rid, ct, cv⟩ := f
  cases cv with
  | none =>
    cases rid with
    | none => exact ⟨[], by simp [relayStep_no_conv_no_to, RelayResult.store]⟩
    | some r =>
      cases ct with
      | none =>
        exact ⟨[], by
          simp [relayStep_conv_absent, relayPersist_no_content,
            RelayResult.store, appendConversation]⟩
      | some txt =>
        refine ⟨[⟨st.nextMsgId, st.nextConvId, uid, txt, st.clock⟩], ?_⟩
        rw [relayStep_conv_absent]
        cases hB : dictGet reg r with
        | none =>
          rw [relayPersist_offline _ _ _ _ _ _ hB]
          simp [RelayResult.store, appendMessage, appendConversation]
        | some hb =>
          rw [relayPersist_online _ _ _ _ _ _ _ hB]
          simp [RelayResult.store, appendMessage, appendConversation]
  | some c =>
    cases ct with
    | none =>
      exact ⟨[], by
        simp [relayStep_conv_present, relayPersist_no_content, RelayResult.store]⟩
    | some txt =>
      refine ⟨[⟨st.nextMsgId, c, uid, txt, st.clock⟩], ?_⟩
      rw [relayStep_conv_present]
      cases rid with
      | none => simp [relayPersist, RelayResult.store, appendMessage]
      | some B =>
        cases hB : dictGet reg B with
        | none =>
          rw [relayPersist_offline _ _ _ _ _ _ hB]
          simp [RelayResult.store, appendMessage]
        | some hb =>
          rw [relayPersist_online _ _ _ _ _ _ _ hB]
          simp [RelayResult.store, appendMessage]

theorem stepOk_eq_true_iff (reg : Registry) (st : Store) (uid : UserId)
    (f : InFrame) :
    stepOk reg st uid f = true
      ↔ ∃ st' tr e, relayStep reg st uid f = .sent st' tr e := by
  unfold stepOk
  constructor
  · intro h
    split at h
    · next st' tr e heq => exact ⟨st', tr, e, heq⟩
    · next st' heq => cases h
  · rintro ⟨st', tr, e, heq⟩
    rw [heq]

/-! ### Invariant preservation -/

theorem inv_init : Inv initState := by
  unfold Inv initState
  exact ⟨by simp, by simp, fun u => rfl⟩

theorem inv_step (s : SysState) (e : Event) (hInv : Inv s)
    (hok : eventOk s e = true) : Inv (step s e).1 := by
  obtain ⟨hfst, hsnd, hmatch⟩ := hInv
  cases e with
  | connect token h =>
    cases token with
    | none => exact ⟨hfst, hsnd, hmatch⟩
    | some uid =>
      simp only [eventOk, Bool.and_eq_true, Bool.not_eq_true',
        Option.isNone_iff_eq_none] at hok
      obtain ⟨hnu, hnh⟩ := hok
      have hmemh : h ∉ s.sessions.map Prod.fst := by
        intro hm
        obtain ⟨p, hp, hpe⟩ := List.mem_map.mp hm
        exact (sessionUid_eq_none_iff _ _).mp hnh p hp hpe
      have hmemu : uid ∉ s.sessions.map Prod.snd := by
        intro hm
        obtain ⟨p, hp, hpe⟩ := List.mem_map.mp hm
        have hx : (p.1, uid) ∈ s.sessions := by
          rw [← hpe]
          simpa using hp
        exact Bool.false_ne_true
          (hnu.symm.trans ((hasUid_eq_true_iff _ _).mpr ⟨p.1, hx⟩))
      unfold Inv
      refine ⟨?_, ?_, ?_⟩
      · rw [show (step s (.connect (some uid) h)).1.sessions
            = s.sessions ++ [(h, uid)] from rfl, List.map_append]
        refine List.nodup_append.mpr ⟨hfst, by simp, ?_⟩
        intro a ha hb
        rw [List.map_singleton, List.mem_singleton] at hb
        subst hb
        exact hmemh ha
      · rw [show (step s (.connect (some uid) h)).1.sessions
            = s.sessions ++ [(h, uid)] from rfl, List.map_append]
        refine List.nodup_append.mpr ⟨hsnd, by simp, ?_⟩
        intro a ha hb
        rw [List.map_singleton, List.mem_singleton] at hb
        subst hb
        exact hmemu ha
      · intro u
        show (dictGet (dictSet s.reg uid h) u).isSome
          = hasUid (s.sessions ++ [(h, uid)]) u
        by_cases huu : u = uid
        · subst huu
          rw [dictGet_dictSet_self, hasUid_append]
          simp [hasUid]
        · rw [dictGet_dictSet_ne _ _ _ _ huu, hasUid_append, hmatch u]
          have hne : ¬(uid = u) := fun hh => huu hh.symm
          have : hasUid [(h, uid)] u = false := by
            simp [hasUid, hne]
          rw [this, Bool.or_false]
  | frame h f =>
    simp only [step]
    split
    · exact ⟨hfst, hsnd, hmatch⟩
    · next uid hses =>
      split
      · next st' toRecv echo heq => exact ⟨hfst, hsnd, hmatch⟩
      · next st' heq =>
        exfalso
        simp only [eventOk, hses] at hok
        obtain ⟨a, b, c, hsent⟩ := (stepOk_eq_true_iff _ _ _ _).mp hok
        rw [hsent] at heq
        cases heq
  | disconnect h =>
    simp only [step]
    split
    · exact ⟨hfst, hsnd, hmatch⟩
    · next uid hses =>
      have hx : (h, uid) ∈ s.sessions := sessionUid_eq_some_mem _ _ _ hses
      unfold Inv
      refine ⟨((removeSession_sublist _ _).map Prod.fst).nodup hfst,
        ((removeSession_sublist _ _).map Prod.snd).nodup hsnd, ?_⟩
      intro u
      show (dictGet (dictDel s.reg uid) u).isSome
        = hasUid (removeSession s.sessions h) u
      by_cases huu : u = uid
      · subst huu
        rw [dictGet_dictDel_self]
        cases hcase : hasUid (removeSession s.sessions h) u with
        | false => rfl
        | true =>
          exfalso
          obtain ⟨h', hm⟩ := (hasUid_eq_true_iff _ _).mp hcase
          obtain ⟨hm', hne⟩ := (mem_removeSession _ _ _).mp hm
          exact hne (snd_nodup_uniq _ hsnd h' h u hm' hx)
      · rw [dictGet_dictDel_ne _ _ _ huu, hmatch u]
        cases hcase : hasUid (removeSession s.sessions h) u with
        | true =>
          obtain ⟨h', hm⟩ := (hasUid_eq_true_iff _ _).mp hcase
          exact (hasUid_eq_true_iff _ _).mpr ⟨h', ((mem_removeSession _ _ _).mp hm).1⟩
        | false =>
          cases hss : hasUid s.sessions u with
          | false => rfl
          | true =>
            exfalso
            obtain ⟨h'', hm⟩ := (hasUid_eq_true_iff _ _).mp hss
            have hne : h'' ≠ h := by
              intro hE
              subst hE
              exact huu (fst_nodup_uniq _ hfst h'' u uid hm hx)
            have hmem : (h'', u) ∈ removeSession s.sessions h :=
              (mem_removeSession _ _ _).mpr ⟨hm, hne⟩
            exact Bool.false_ne_true
              (hcase.symm.trans ((hasUid_eq_true_iff _ _).mpr ⟨h'', hmem⟩))

theorem runEvents_fst_cons (s : SysState) (e : Event) (es : List Event) :
    (runEvents s (e :: es)).1 = (runEvents (step s e).1 es).1 := rfl

theorem inv_run (s : SysState) (es : List Event) (hInv : Inv s)
    (hval : validRun s es = true) : Inv (runEvents s es).1 := by
  induction es generalizing s with
  | nil => simpa [runEvents] using hInv
  | cons e es ih =>
    simp only [validRun, Bool.and_eq_true] at hval
    rw [runEvents_fst_cons]
    exact ih _ (inv_step s e hInv hval.1) hval.2

theorem reg_keys_nodup_step (s : SysState) (e : Event)
    (h : (s.reg.map Prod.fst).Nodup) : ((step s e).1.reg.map Prod.fst).Nodup := by
  cases e with
  | connect token hh =>
    cases token with
    | none => exact h
    | some uid => exact nodup_keys_dictSet _ _ _ h
  | frame hh f =>
    simp only [step]
    split
    · exact h
    · next uid hses =>
      split
      · next st' toRecv echo heq => exact h
      · next st' heq => exact h
  | disconnect hh =>
    simp only [step]
    split
    · exact h
    · next uid hses => exact nodup_keys_dictDel _ _ h

theorem reg_keys_nodup_run (s : SysState) (es : List Event)
    (h : (s.reg.map Prod.fst).Nodup) :
    ((runEvents s es).1.reg.map Prod.fst).Nodup := by
  induction es generalizing s with
  | nil => simpa [runEvents] using h
  | cons e es ih =>
    rw [runEvents_fst_cons]
    exact ih _ (reg_keys_nodup_step s e h)

/-! ### Read-loop lemmas -/

theorem relayLoop_messages (reg : Registry) (uid : UserId) (h : Handle)
    (fs : List InFrame) :
    ∀ st : Store, ∃ t, (relayLoop reg uid h st fs).1.messages = st.messages ++ t := by
  induction fs with
  | nil =>
    intro st
    exact ⟨[], by simp [relayLoop]⟩
  | cons f fs ih =>
    intro st
    obtain ⟨t0, ht0⟩ := relayStep_store_messages reg st uid f
    cases hrel : relayStep reg st uid f with
    | sent st' toRecv echo =>
      obtain ⟨t1, ht1⟩ := ih st'
      refine ⟨t0 ++ t1, ?_⟩
      rw [hrel] at ht0
      simp only [RelayResult.store] at ht0
      simp only [relayLoop, hrel]
      rw [ht1, ht0, List.append_assoc]
    | dbError st' =>
      refine ⟨t0, ?_⟩
      rw [hrel] at ht0
      simp only [RelayResult.store] at ht0
      simp only [relayLoop, hrel]
      exact ht0

theorem relayLoop_append (reg : Registry) (uid : UserId) (h : Handle)
    (fs1 fs2 : List InFrame) :
    ∀ st : Store, loopOk reg uid st fs1 = true →
      relayLoop reg uid h st (fs1 ++ fs2)
        = ((relayLoop reg uid h (relayLoop reg uid h st fs1).1 fs2).1,
           (relayLoop reg uid h st fs1).2
             ++ (relayLoop reg uid h (relayLoop reg uid h st fs1).1 fs2).2) := by
  induction fs1 with
  | nil =>
    intro st _
    simp [relayLoop]
  | cons f fs1 ih =>
    intro st hok
    cases hrel : relayStep reg st uid f with
    | sent st' toRecv echo =>
      have hok' : loopOk reg uid st' fs1 = true := by
        simp only [loopOk, hrel] at hok
        exact hok
      simp only [List.cons_append, relayLoop, hrel, List.append_eq]
      rw [ih st' hok']
      simp [List.append_assoc]
    | dbError st' =>
      simp only [loopOk, hrel, Bool.false_eq_true] at hok

/-! ### Claim theorems -/

/-- C1, counterexample: after `Register(1, 10)` then `Register(1, 20)`, a
`disconnect` teardown of the stale connection 10 does remove handle 20:
the registry maps user 1 to nothing, not to `some 20` as the claim
requires.  The teardown at lines 198-199 of `main.py` deletes by user id
alone, with no check that the registered handle is the disconnecting
session's own socket. -/
theorem stale_disconnect_evicts_new_handle_cex :
    dictGet (runEvents initState
      [.connect (some 1) 10, .connect (some 1) 20, .disconnect 10]).1.reg 1
      ≠ some 20 ∧
    dictGet (runEvents initState
      [.connect (some 1) 10, .connect (some 1) 20, .disconnect 10]).1.reg 1
      = none := ⟨by decide, rfl⟩

/-- C1, amended: the teardown run by the stale session deletes the
registry entry for the user id whenever one is present, whatever handle
it currently holds.  After `Register(id, h1)`, `Register(id, h2)`,
`Unregister` triggered by disconnecting `h1`, the id is mapped to
nothing at all while the newer session on `h2` is still active. -/
theorem unregister_by_id_removes_new_handle (id : UserId) (h1 h2 : Handle)
    (hne : h1 ≠ h2) :
    dictGet (runEvents initState
      [.connect (some id) h1, .connect (some id) h2, .disconnect h1]).1.reg id
      = none ∧
    (runEvents initState
      [.connect (some id) h1, .connect (some id) h2, .disconnect h1]).1.sessions
      = [(h2, id)] := by
  have hne' : ¬(h2 = h1) := fun hh => hne hh.symm
  constructor <;>
    simp [runEvents, step, dictSet, dictGet, dictDel, sessionUid, removeSession,
      initState, hne, hne']

/-- C1, witness for the amended theorem at `id = 1`, `h1 = 10`,
`h2 = 20`. -/
theorem unregister_by_id_removes_new_handle_witness :
    (10 : Handle) ≠ 20 ∧
    (dictGet (runEvents initState
        [.connect (some 1) 10, .connect (some 1) 20, .disconnect 10]).1.reg 1
        = none ∧
      (runEvents initState
        [.connect (some 1) 10, .connect (some 1) 20, .disconnect 10]).1.sessions
        = [(20, 1)]) :=
  ⟨by decide, unregister_by_id_removes_new_handle 1 10 20 (by decide)⟩

/-- C2, counterexample: a session killed by a database error (here a
frame with no content, whose message commit violates `NOT NULL`) leaves
its registry entry behind: user 1 is still registered on handle 7
although no session loop is active, because the `del` cleanup runs only
in the `except WebSocketDisconnect` handler. -/
theorem error_exit_leaves_registry_entry_cex :
    dictGet (runEvents initState
      [.connect (some 1) 7, .frame 7 ⟨some 2, none, none⟩]).1.reg 1 = some 7 ∧
    (runEvents initState
      [.connect (some 1) 7, .frame 7 ⟨some 2, none, none⟩]).1.sessions = [] :=
  ⟨rfl, rfl⟩

/-- C2, amended: the registry-iff-active-session correspondence holds
only for runs in which no session is killed by a database error, no
duplicate login occurs while the first session for the identity is
still live, and handles are not reused while live (the guard
`validRun`).  In general an error-terminated session leaves a dangling
entry and a stale disconnect deletes a newer session's entry. -/
theorem registry_matches_sessions_on_clean_runs (es : List Event)
    (hval : validRun initState es = true) (u : UserId) :
    (dictGet (runEvents initState es).1.reg u).isSome
      = hasUid (runEvents initState es).1.sessions u :=
  (inv_run initState es inv_init hval).2.2 u

/-- C2, witness for the amended theorem on a clean
connect-frame-disconnect run. -/
theorem registry_matches_sessions_on_clean_runs_witness :
    validRun initState
      [.connect (some 1) 7, .frame 7 ⟨some 2, some "hi", none⟩, .disconnect 7]
      = true ∧
    (dictGet (runEvents initState
        [.connect (some 1) 7, .frame 7 ⟨some 2, some "hi", none⟩,
         .disconnect 7]).1.reg 1).isSome
      = hasUid (runEvents initState
        [.connect (some 1) 7, .frame 7 ⟨some 2, some "hi", none⟩,
         .disconnect 7]).1.sessions 1 :=
  ⟨by decide, registry_matches_sessions_on_clean_runs _ (by decide) 1⟩

/-- C3, counterexample: user 1 sends to user 2 twice with no
`conversation_id`; the store ends with two distinct conversation rows
for the same unordered pair, refuting "at most one conversation ever
exists for a given pair". -/
theorem duplicate_conversations_for_same_pair_cex :
    ∃ c1 c2 : Conversation,
      c1 ∈ ((relayStep []
          ((relayStep [] emptyStore 1 ⟨some 2, some "a", none⟩).store) 1
          ⟨some 2, some "b", none⟩).store).conversations ∧
      c2 ∈ ((relayStep []
          ((relayStep [] emptyStore 1 ⟨some 2, some "a", none⟩).store) 1
          ⟨some 2, some "b", none⟩).store).conversations ∧
      c1.user_a = c2.user_a ∧ c1.user_b = c2.user_b ∧ c1.id ≠ c2.id :=
  ⟨⟨1, 1, 2⟩, ⟨2, 1, 2⟩, by decide, by decide, rfl, rfl, by decide⟩

/-- C3, amended: a frame without `conversationRef` never resolves an
existing conversation; the session unconditionally creates a fresh
`Conversation(user_a=sender, user_b=recipient)` row with the next
autoincrement id — no lookup by pair, no canonicalization of order, so
repeated sends without a `conversationRef` produce duplicate
conversations for the same pair. -/
theorem missing_conversation_ref_always_creates (reg : Registry) (st : Store)
    (uid r : UserId) (txt : String) :
    ∃ toRecv,
      relayStep reg st uid ⟨some r, some txt, none⟩
        = .sent (appendMessage (appendConversation st uid r).1
              st.nextConvId uid txt).1
            toRecv ⟨st.nextConvId, uid, txt, st.clock⟩ ∧
      (relayStep reg st uid ⟨some r, some txt, none⟩).store.conversations
        = st.conversations ++ [⟨st.nextConvId, uid, r⟩] := by
  rw [relayStep_conv_absent]
  cases hB : dictGet reg r with
  | none =>
    rw [relayPersist_offline _ _ _ _ _ _ hB]
    exact ⟨none, rfl, by simp [RelayResult.store, appendMessage, appendConversation]⟩
  | some hb =>
    rw [relayPersist_online _ _ _ _ _ _ _ hB]
    exact ⟨some (hb, ⟨st.nextConvId, uid, txt, st.clock⟩), rfl,
      by simp [RelayResult.store, appendMessage, appendConversation]⟩

/-- C6, counterexample: the frame `{"content": "hi", "conversation_id": 7}`
is missing the recipient, yet it is not dropped silently: a message row
is persisted and an echo reply is produced for the sender. -/
theorem malformed_frame_not_dropped_cex :
    (relayStep [] emptyStore 1 ⟨none, some "hi", some 7⟩).store.messages
      ≠ emptyStore.messages ∧
    ∃ e, relayStep [] emptyStore 1 ⟨none, some "hi", some 7⟩
        = .sent (relayStep [] emptyStore 1 ⟨none, some "hi", some 7⟩).store
            none e :=
  ⟨by decide, ⟨⟨7, 1, "hi", 0⟩, rfl⟩⟩

/-- C6, amended: the code performs no malformed-frame validation at all.
A frame missing the recipient but carrying a `conversation_id` and a
content is persisted under that conversation and echoed to the sender
(with no forward to anyone); a frame missing both recipient and
`conversation_id` raises at the conversation commit; a frame missing
the content raises at the message commit (persisting nothing further);
and a frame whose commit raises terminates the read loop at once, so
the session does not remain Active and later frames go unprocessed. -/
theorem malformed_frame_behavior :
    (∀ (reg : Registry) (st : Store) (uid : UserId) (txt : String) (c : ConvId),
      relayStep reg st uid ⟨none, some txt, some c⟩
        = .sent (appendMessage st c uid txt).1 none ⟨c, uid, txt, st.clock⟩) ∧
    (∀ (reg : Registry) (st : Store) (uid : UserId) (ct : Option String),
      relayStep reg st uid ⟨none, ct, none⟩ = .dbError st) ∧
    (∀ (reg : Registry) (st : Store) (uid : UserId) (rid : Option UserId)
        (cv : Option ConvId),
      ∃ st', relayStep reg st uid ⟨rid, none, cv⟩ = .dbError st' ∧
        st'.messages = st.messages) ∧
    (∀ (reg : Registry) (uid : UserId) (h : Handle) (st : Store)
        (ct : Option String) (fs : List InFrame),
      relayLoop reg uid h st (⟨none, ct, none⟩ :: fs) = (st, [])) := by
  refine ⟨?_, ?_, ?_, ?_⟩
  · intro reg st uid txt c
    rw [relayStep_conv_present]
    simp [relayPersist, appendMessage]
  · intro reg st uid ct
    exact relayStep_no_conv_no_to reg st uid ct
  · intro reg st uid rid cv
    cases cv with
    | some c => exact ⟨st, relayStep_conv_present _ _ _ _ _ _, rfl⟩
    | none =>
      cases rid with
      | none => exact ⟨st, relayStep_no_conv_no_to _ _ _ _, rfl⟩
      | some r =>
        exact ⟨(appendConversation st uid r).1, relayStep_conv_absent _ _ _ _ _,
          by simp [appendConversation]⟩
  · intro reg uid h st ct fs
    rfl

/-- C7: a connection whose credential fails verification is closed at
once with the policy-violation status code 1008, and the global state
is untouched: nothing is registered for any identity, nothing is
persisted, and no session loop (Active state) is ever started. -/
theorem auth_failure_closes_1008_no_side_effects (s : SysState) (h : Handle) :
    step s (.connect none h) = (s, [.close h 1008]) := rfl

/-- C4: when the recipient `B` is registered on handle `hB`, a frame
from the session of `uid` produces exactly two sends — the outbound
frame to `hB` and the echo to the sender's own socket — and the two
frames are one and the same `out` value, hence carry an identical
server-assigned timestamp and an identical conversation reference. -/
theorem online_recipient_gets_frame_and_sender_echo (s : SysState) (h : Handle)
    (uid B : UserId) (hB : Handle) (txt : String) (o : Option ConvId)
    (hses : sessionUid s.sessions h = some uid)
    (hreg : dictGet s.reg B = some hB) :
    ∃ st' out,
      step s (.frame h ⟨some B, some txt, o⟩)
        = ({ s with store := st' }, [.send hB out, .send h out]) ∧
      out.sender_id = uid ∧ out.content = txt := by
  cases o with
  | some c =>
    refine ⟨(appendMessage s.store c uid txt).1, ⟨c, uid, txt, s.store.clock⟩,
      ?_, rfl, rfl⟩
    have hstep : relayStep s.reg s.store uid ⟨some B, some txt, some c⟩
        = .sent (appendMessage s.store c uid txt).1
            (some (hB, ⟨c, uid, txt, s.store.clock⟩)) ⟨c, uid, txt, s.store.clock⟩ := by
      rw [relayStep_conv_present]
      exact relayPersist_online _ _ _ _ _ _ _ hreg
    simp [step, hses, hstep]
  | none =>
    refine ⟨(appendMessage (appendConversation s.store uid B).1
        s.store.nextConvId uid txt).1,
      ⟨s.store.nextConvId, uid, txt, s.store.clock⟩, ?_, rfl, rfl⟩
    have hstep : relayStep s.reg s.store uid ⟨some B, some txt, none⟩
        = .sent (appendMessage (appendConversation s.store uid B).1
              s.store.nextConvId uid txt).1
            (some (hB, ⟨s.store.nextConvId, uid, txt, s.store.clock⟩))
            ⟨s.store.nextConvId, uid, txt, s.store.clock⟩ := by
      rw [relayStep_conv_absent]
      exact relayPersist_online _ _ _ _ _ _ _ hreg
    simp [step, hses, hstep]

/-- C4, witness: user 1 on socket 40 sends to user 2 registered on
handle 30. -/
theorem online_recipient_gets_frame_and_sender_echo_witness :
    ∃ st' out,
      step ⟨[(2, 30)], emptyStore, [(40, 1)]⟩
          (.frame 40 ⟨some 2, some "hi", some 1⟩)
        = (⟨[(2, 30)], st', [(40, 1)]⟩, [.send 30 out, .send 40 out]) ∧
      out.sender_id = 1 ∧ out.content = "hi" :=
  online_recipient_gets_frame_and_sender_echo
    ⟨[(2, 30)], emptyStore, [(40, 1)]⟩ 40 1 2 30 "hi" (some 1) rfl rfl

/-- C5: when the recipient `B` has no registry entry, the frame is
persisted to the store — the new message row is retrievable through the
`GET /messages` read path — but the step produces no outbound frame for
`B`: the only send is the echo to the sender, and no error of any kind
is raised. -/
theorem offline_recipient_message_persisted_no_forward (s : SysState)
    (h : Handle) (uid B : UserId) (txt : String) (o : Option ConvId)
    (hses : sessionUid s.sessions h = some uid)
    (hreg : dictGet s.reg B = none) :
    ∃ st' out m,
      step s (.frame h ⟨some B, some txt, o⟩)
        = ({ s with store := st' }, [.send h out]) ∧
      st'.messages = s.store.messages ++ [m] ∧
      m.content = txt ∧ m.sender_id = uid ∧
      m ∈ listMessages st' out.conversation_id := by
  cases o with
  | some c =>
    refine ⟨(appendMessage s.store c uid txt).1, ⟨c, uid, txt, s.store.clock⟩,
      ⟨s.store.nextMsgId, c, uid, txt, s.store.clock⟩, ?_, ?_, rfl, rfl, ?_⟩
    · have hstep : relayStep s.reg s.store uid ⟨some B, some txt, some c⟩
          = .sent (appendMessage s.store c uid txt).1 none
              ⟨c, uid, txt, s.store.clock⟩ := by
        rw [relayStep_conv_present]
        exact relayPersist_offline _ _ _ _ _ _ hreg
      simp [step, hses, hstep]
    · simp [appendMessage]
    · simp [listMessages, appendMessage]
  | none =>
    refine ⟨(appendMessage (appendConversation s.store uid B).1
        s.store.nextConvId uid txt).1,
      ⟨s.store.nextConvId, uid, txt, s.store.clock⟩,
      ⟨s.store.nextMsgId, s.store.nextConvId, uid, txt, s.store.clock⟩,
      ?_, ?_, rfl, rfl, ?_⟩
    · have hstep : relayStep s.reg s.store uid ⟨some B, some txt, none⟩
          = .sent (appendMessage (appendConversation s.store uid B).1
                s.store.nextConvId uid txt).1 none
              ⟨s.store.nextConvId, uid, txt, s.store.clock⟩ := by
        rw [relayStep_conv_absent]
        exact relayPersist_offline _ _ _ _ _ _ hreg
      simp [step, hses, hstep]
    · simp [appendMessage, appendConversation]
    · simp [listMessages, appendMessage, appendConversation]

/-- C5, witness: user 1 on socket 40 sends to the offline user 2 with no
conversation reference. -/
theorem offline_recipient_message_persisted_no_forward_witness :
    ∃ st' out m,
      step ⟨[], emptyStore, [(40, 1)]⟩ (.frame 40 ⟨some 2, some "hi", none⟩)
        = (⟨[], st', [(40, 1)]⟩, [.send 40 out]) ∧
      st'.messages = emptyStore.messages ++ [m] ∧
      m.content = "hi" ∧ m.sender_id = 1 ∧
      m ∈ listMessages st' out.conversation_id :=
  offline_recipient_message_persisted_no_forward
    ⟨[], emptyStore, [(40, 1)]⟩ 40 1 2 "hi" none rfl rfl

/-- C8: starting from boot, every reachable registry has pairwise
distinct user-id keys (at most one entry per identity at all times);
and in the duplicate-login scenario — user `id` connects on `c1` then
`c2` while `sid` is connected on `hs` — the registry ends with `id`
mapped to `c2` only, and a message addressed to `id` is sent to `c2`
and echoed to the sender, with no frame to `c1`. -/
theorem registry_single_entry_and_last_writer_wins :
    (∀ es : List Event, ((runEvents initState es).1.reg.map Prod.fst).Nodup) ∧
    (∀ (sid id : UserId) (hs c1 c2 : Handle) (txt : String), sid ≠ id →
      (runEvents initState
        [.connect (some sid) hs, .connect (some id) c1, .connect (some id) c2,
         .frame hs ⟨some id, some txt, some 1⟩]).1.reg
        = [(sid, hs), (id, c2)] ∧
      (runEvents initState
        [.connect (some sid) hs, .connect (some id) c1, .connect (some id) c2,
         .frame hs ⟨some id, some txt, some 1⟩]).2
        = [.send c2 ⟨1, sid, txt, 0⟩, .send hs ⟨1, sid, txt, 0⟩]) := by
  constructor
  · intro es
    exact reg_keys_nodup_run initState es (by simp [initState])
  · intro sid id hs c1 c2 txt hne
    have hne' : ¬(sid = id) := hne
    constructor <;>
      simp [runEvents, step, dictSet, dictGet, sessionUid, relayStep_conv_present,
        relayPersist, appendMessage, initState, emptyStore, hne']

/-- C8, witness: user 5 logs in on connections 11 then 12 while user 1
is connected on 10; user 1 then messages user 5. -/
theorem registry_single_entry_and_last_writer_wins_witness :
    (1 : UserId) ≠ 5 ∧
    ((runEvents initState
        [.connect (some 1) 10, .connect (some 5) 11, .connect (some 5) 12,
         .frame 10 ⟨some 5, some "m", some 1⟩]).1.reg = [(1, 10), (5, 12)] ∧
      (runEvents initState
        [.connect (some 1) 10, .connect (some 5) 11, .connect (some 5) 12,
         .frame 10 ⟨some 5, some "m", some 1⟩]).2
        = [.send 12 ⟨1, 1, "m", 0⟩, .send 10 ⟨1, 1, "m", 0⟩]) :=
  ⟨by decide,
    registry_single_entry_and_last_writer_wins.2 1 5 10 11 12 "m" (by decide)⟩

/-- C9: the read loop is sequential and order-preserving.  Processing
`fs1 ++ fs2` equals processing `fs1` to completion and then `fs2` from
the resulting store, with the send trace of `fs1` preceding that of
`fs2`; and the store's message table only ever grows at the tail, so
two messages received on one connection are persisted and forwarded in
arrival order. -/
theorem single_session_fifo_order (reg : Registry) (uid : UserId) (h : Handle)
    (st : Store) (fs1 fs2 : List InFrame)
    (hok : loopOk reg uid st fs1 = true) :
    relayLoop reg uid h st (fs1 ++ fs2)
      = ((relayLoop reg uid h (relayLoop reg uid h st fs1).1 fs2).1,
         (relayLoop reg uid h st fs1).2
           ++ (relayLoop reg uid h (relayLoop reg uid h st fs1).1 fs2).2) ∧
    (∃ t, (relayLoop reg uid h st fs1).1.messages = st.messages ++ t) :=
  ⟨relayLoop_append reg uid h fs1 fs2 st hok,
    relayLoop_messages reg uid h fs1 st⟩

/-- C9, witness: two messages from user 1 in immediate succession on
socket 40. -/
theorem single_session_fifo_order_witness :
    loopOk [] 1 emptyStore [⟨some 2, some "a", some 1⟩] = true ∧
    (relayLoop [] 1 40 emptyStore
        ([⟨some 2, some "a", some 1⟩] ++ [⟨some 2, some "b", some 1⟩])
      = ((relayLoop [] 1 40
            (relayLoop [] 1 40 emptyStore [⟨some 2, some "a", some 1⟩]).1
            [⟨some 2, some "b", some 1⟩]).1,
         (relayLoop [] 1 40 emptyStore [⟨some 2, some "a", some 1⟩]).2
           ++ (relayLoop [] 1 40
                (relayLoop [] 1 40 emptyStore [⟨some 2, some "a", some 1⟩]).1
                [⟨some 2, some "b", some 1⟩]).2) ∧
      ∃ t, (relayLoop [] 1 40 emptyStore [⟨some 2, some "a", some 1⟩]).1.messages
        = emptyStore.messages ++ t) :=
  ⟨rfl, single_session_fifo_order [] 1 40 emptyStore
    [⟨some 2, some "a", some 1⟩] [⟨some 2, some "b", some 1⟩] rfl⟩

/-- C10: a frame carrying an explicit `conversation_id` is persisted
under that id for every store state whatsoever — no check that a
conversation with that id exists, and no check that sender or recipient
are its participants (the conversations table is neither consulted nor
changed) — so any authenticated user can append a message to any
conversation id they name. -/
theorem conversation_id_trusted_without_check (reg : Registry) (st : Store)
    (uid : UserId) (rid : Option UserId) (c : ConvId) (txt : String) :
    ∃ toRecv,
      relayStep reg st uid ⟨rid, some txt, some c⟩
        = .sent (appendMessage st c uid txt).1 toRecv ⟨c, uid, txt, st.clock⟩ ∧
      (appendMessage st c uid txt).1.messages
        = st.messages ++ [⟨st.nextMsgId, c, uid, txt, st.clock⟩] ∧
      (appendMessage st c uid txt).1.conversations = st.conversations := by
  rw [relayStep_conv_present]
  cases rid with
  | none =>
    exact ⟨none, by simp [relayPersist, appendMessage], by simp [appendMessage], rfl⟩
  | some B =>
    cases hB : dictGet reg B with
    | none =>
      exact ⟨none, relayPersist_offline _ _ _ _ _ _ hB,
        by simp [appendMessage], rfl⟩
    | some hb =>
      exact ⟨some (hb, ⟨c, uid, txt, st.clock⟩),
        relayPersist_online _ _ _ _ _ _ _ hB, by simp [appendMessage], rfl⟩

end BatChit
